import Mathlib

/-
Verification of the devwatch event-processing core (watchEvents.go) against
its natural-language specification.

Shallow embedding conventions:
* Go strings are modelled as `List Char` (named `Str` below), so that all
  operations are structurally recursive and kernel-reducible.
* `time.Time` values are natural numbers (milliseconds on a monotone clock);
  the Go code only subtracts and compares them.  `now.Sub(last)` is modelled
  by truncated subtraction `now - last`; when `now < last` both the Go code
  (negative duration) and the model (0) take the "within the window" branch,
  so truncation is behaviour-preserving.
* SHA-256 fingerprints ([32]byte) are modelled by the inductive `Hash`:
  `Hash.sha c` is the digest of content `c` and `Hash.zero` is the
  distinguished zero value returned for unreadable files.  `sha` is injective
  and distinct from `zero`, which is exactly the collision-freeness the Go
  code's design relies on.
* The filesystem visible to `os.Stat`/`os.Open` is a snapshot function
  `FS : Str → EntryState`.  Handler dispatch may rewrite files on disk, so
  the event-loop step takes two snapshots: `fs` (at stat/decision time) and
  `fsAfter` (after `handleFileEvent` returned).
-/

namespace DevWatch

/-- Go strings, modelled as character lists so everything reduces in the kernel. -/
abbrev Str := List Char

/-- File content: a list of bytes. -/
abbrev Content := List Nat

/-- A content fingerprint: either the distinguished zero value (`[32]byte{}` in Go,
returned by `calculateFileHash` when the file cannot be read) or the SHA-256
digest of some content, modelled injectively. -/
inductive Hash where
  | zero : Hash
  | sha (c : Content) : Hash
deriving DecidableEq

/-- State of one path in a filesystem snapshot: absent (`os.Stat` fails),
a directory, or a file whose content is `some c`, or `none` when the file
exists but cannot be opened/read. -/
inductive EntryState where
  | absent : EntryState
  | directory : EntryState
  | file (content : Option Content) : EntryState
deriving DecidableEq

/-- A filesystem snapshot. -/
abbrev FS := Str → EntryState

/-- Go: `const debounceWindow = 50 * time.Millisecond` (watchEvents.go line 23). -/
def debounceWindow : Nat := 50

/-- Go: `const wait = 50 * time.Millisecond` in `scheduleReload` (line 227). -/
def reloadWait : Nat := 50

/-- Splits a character list at separator characters, keeping empty segments,
like Go's `strings.Split` / Lean's `String.split`. -/
def splitSegsAux (sep : Char → Bool) : List Char → List Char → List (List Char)
  | [], cur => [cur.reverse]
  | c :: cs, cur =>
    if sep c then cur.reverse :: splitSegsAux sep cs []
    else splitSegsAux sep cs (c :: cur)

def splitSegs (sep : Char → Bool) (s : List Char) : List (List Char) :=
  splitSegsAux sep s []

/-- A path separator: either `/` or the Windows separator `\`.  The test
`TestContain` (watcher_test.go) exercises both styles, so the model treats
both uniformly. -/
def isSep (c : Char) : Bool := c == '/' || c == '\\'

/-- The segments of a path, split on both separator styles. -/
def pathSegments (p : Str) : List Str := splitSegs isSep p

/-- Modelled from the spec: `GetFileName` is not present in `src/` (only its
call site in watchEvents.go line 64).  Spec §4.6 says the loop "derive[s] the
base file name"; modelled as the final path segment, total. -/
def getFileName (p : Str) : Str := (pathSegments p).getLast?.getD []

/-- Go: `filepath.Ext` — the suffix of the final path element starting at its
final dot, empty if there is no dot. -/
def pathExt (p : Str) : Str :=
  let base := getFileName p
  match splitSegs (· == '.') base with
  | [] => []
  | [_] => []
  | ps => '.' :: (ps.getLast?.getD [])

/-- Whether a segment is hidden, i.e. starts with a dot. -/
def startsDot : Str → Bool
  | '.' :: _ => true
  | _ => false

/-- Modelled from the spec: the `Contain` method of `DevWatch` is not present
in `src/` (only its test `TestContain` is).  Spec §4.1: "A path is excluded if
any path segment either (a) starts with `.` (hidden), or (b) exactly matches
one of a caller-supplied set of excluded names", segment-wise on both `/` and
the platform separator. -/
def Contain (unobservedFiles : List Str) (p : Str) : Bool :=
  (pathSegments p).any fun seg => startsDot seg || unobservedFiles.contains seg

/-- Go: `calculateFileHash` (watchEvents.go lines 273-290).  Returns the zero
hash when the file does not exist or cannot be read (opening a directory also
fails to produce content), otherwise the SHA-256 digest of the file's bytes. -/
def calculateFileHash (fs : FS) (filePath : Str) : Hash :=
  match fs filePath with
  | .file (some c) => Hash.sha c
  | _ => Hash.zero

/-- Lower-casing of an op string, modelling `strings.ToLower` on the ASCII op
names produced by fsnotify (`"CREATE"`, `"WRITE"`, `"REMOVE"`, `"RENAME"`, ...). -/
def toLowerStr (s : Str) : Str := s.map Char.toLower

/-- Go (watchEvents.go lines 50-51):
`eventType := strings.ToLower(event.Op.String())`;
`isDeleteEvent := eventType == "remove" || eventType == "delete"`. -/
def isDeleteEvent (op : Str) : Bool :=
  let eventType := toLowerStr op
  eventType == "remove".data || eventType == "delete".data

/-- Go: the `fileEventKey` struct (watchEvents.go lines 14-17). -/
structure FileEventKey where
  lastTime : Nat
  lastHash : Hash
deriving DecidableEq

/-- A registered `FilesEventHandlers` value (external interface, devwatch.go):
its supported extensions, its main input file path, and its `NewFileEvent`
method, abstracted as the predicate "returned a nil error" on the four
arguments `(fileName, extension, filePath, event)`. -/
structure Handler where
  supportedExtensions : List Str
  mainInputFileRelativePath : Str
  newFileEventOk : Str → Str → Str → Str → Bool

/-- The ownership oracle `h.depFinder.ThisFileIsMine(mainInput, eventName,
eventType)` (external interface): `none` models a non-nil error, `some b`
models `(b, nil)`. -/
abbrev Oracle := Str → Str → Str → Option Bool

/-- What happened to one handler during `handleFileEvent`'s loop. -/
inductive HandlerStep where
  | notApplicable : HandlerStep
  | oracleError : HandlerStep
  | notMine : HandlerStep
  | invoked (ok : Bool) : HandlerStep
deriving DecidableEq

/-- One iteration of the handler loop in `handleFileEvent`
(watchEvents.go lines 173-203), for a single handler. -/
def handlerStep (oracle : Oracle) (extension fileName eventName eventType : Str)
    (isDelete : Bool) (h : Handler) : HandlerStep :=
  if !(h.supportedExtensions.contains extension) then .notApplicable
  else if !isDelete && extension == ".go".data then
    match oracle h.mainInputFileRelativePath eventName eventType with
    | none => .oracleError
    | some false => .notMine
    | some true => .invoked (h.newFileEventOk fileName extension eventName eventType)
  else .invoked (h.newFileEventOk fileName extension eventName eventType)

/-- Whether a handler step was an invocation that returned a nil error. -/
def stepSucceeded : HandlerStep → Bool
  | .invoked true => true
  | _ => false

/-- The handler loop of `handleFileEvent`, threading the two mutable flags
`processedSuccessfully` and `atLeastOneGoHandlerSucceeded` exactly as the Go
loop does, and also recording each handler's step. -/
def dispatchAll (oracle : Oracle) (extension fileName eventName eventType : Str)
    (isDelete : Bool) : List Handler → List HandlerStep × Bool × Bool
  | [] => ([], false, false)
  | h :: hs =>
    let s := handlerStep oracle extension fileName eventName eventType isDelete h
    let r := dispatchAll oracle extension fileName eventName eventType isDelete hs
    (s :: r.1,
     stepSucceeded s || r.2.1,
     ((extension == ".go".data) && stepSucceeded s) || r.2.2)

/-- Result of `handleFileEvent`: the per-handler steps and whether
`scheduleReload` was called. -/
structure FileEventResult where
  steps : List HandlerStep
  reload : Bool
deriving DecidableEq

/-- Go: `handleFileEvent` (watchEvents.go lines 166-211).  Computes the
extension, runs every handler (no short-circuit), and calls `scheduleReload`
iff `(isGoFileEvent && atLeastOneGoHandlerSucceeded) ||
(!isGoFileEvent && processedSuccessfully)`. -/
def handleFileEvent (oracle : Oracle) (handlers : List Handler)
    (fileName eventName eventType : Str) (isDelete : Bool) : FileEventResult :=
  let extension := pathExt eventName
  let isGoFileEvent := extension == ".go".data
  let r := dispatchAll oracle extension fileName eventName eventType isDelete handlers
  { steps := r.1
    reload := (isGoFileEvent && r.2.2) || (!isGoFileEvent && r.2.1) }

/-- One entry presented to the `filepath.Walk` callback inside
`handleDirectoryEvent`: either the callback received a non-nil error for this
path, or a path together with whether it is a directory.  The traversal
sequence is input data to the model (it abstracts the on-disk tree walk). -/
inductive WalkEntry where
  | errored (path : Str) : WalkEntry
  | entry (path : Str) (isDir : Bool) : WalkEntry

/-- Modelled from the spec: `addDirectoryToWatcher` is not present in `src/`
(only its call sites in watchEvents.go lines 146 and 154).  Spec §2/§4.2: it
registers the path with the notification source and "a per-registration set
prevents re-registering the same path twice during one recursive walk".
`reg` is the registration set for the current walk, `acc` the sequence of
paths actually registered with the notification source so far. -/
def addDirectoryToWatcher (p : Str) (reg acc : List Str) : List Str × List Str :=
  if p ∈ reg then (reg, acc) else (p :: reg, acc ++ [p])

/-- The `filepath.Walk` callback loop of `handleDirectoryEvent`
(watchEvents.go lines 149-157): a non-nil callback error returns nil
(traversal continues); a directory other than the root that is not excluded
is added via `addDirectoryToWatcher`. -/
def walkFold (contain : Str → Bool) (root : Str) :
    List WalkEntry → List Str → List Str → List Str × List Str
  | [], reg, acc => (reg, acc)
  | .errored _ :: es, reg, acc => walkFold contain root es reg acc
  | .entry p isDir :: es, reg, acc =>
    if isDir && !(p == root) && !(contain p) then
      let r := addDirectoryToWatcher p reg acc
      walkFold contain root es r.1 r.2
    else walkFold contain root es reg acc

/-- Go: the `eventType == "create"` branch of `handleDirectoryEvent`
(watchEvents.go lines 140-162), returning the sequence of directory paths
registered with the notification source.  The `FolderEvents.NewFolderEvent`
notification (lines 133-138) has no effect on registrations and is not
modelled.  `eventName` is the directory the event was for. -/
def handleDirectoryEvent (unobservedFiles : List Str) (eventName eventType : Str)
    (walk : List WalkEntry) : List Str :=
  if eventType == "create".data then
    let r := addDirectoryToWatcher eventName [] []
    (walkFold (Contain unobservedFiles) eventName walk r.1 r.2).2
  else []

/-- Declarative first-occurrence de-duplication against a seen set, used to
state what the walk's registration set achieves. -/
def dedupKeepFirst : List Str → List Str → List Str
  | [], _ => []
  | x :: xs, seen =>
    if x ∈ seen then dedupKeepFirst xs seen else x :: dedupKeepFirst xs (x :: seen)

/-- The directories a walk entry offers for registration: non-errored
directory entries other than the root that are not excluded. -/
def walkCandidate (contain : Str → Bool) (root : Str) : WalkEntry → Option Str
  | .errored _ => none
  | .entry p isDir => if isDir && !(p == root) && !(contain p) then some p else none

/-- The per-path debounce map `lastEventInfo` of `watchEvents`
(watchEvents.go line 22). -/
structure WatchState where
  lastEventInfo : Str → Option FileEventKey

/-- The parts of the `DevWatch` configuration the event loop consults. -/
structure WConfig where
  unobservedFiles : List Str
  filesEventHandlers : List Handler
  thisFileIsMine : Oracle

/-- How the event-loop step classified one incoming event. -/
inductive StepAction where
  | discarded : StepAction
  | directoryEvent : StepAction
  | duplicateSkipped : StepAction
  | processed (reload : Bool) : StepAction
deriving DecidableEq

/-- Output of one event-loop step: the new state, the classification of the
event, and whether a decision fingerprint was computed (the `currentHash`
of watchEvents.go line 86, computed only inside the within-window branch). -/
structure StepOut where
  state : WatchState
  action : StepAction
  decisionHashComputed : Bool

/-- Whether `os.Stat` fails for the path (watchEvents.go line 57). -/
def statFailed (fs : FS) (p : Str) : Bool :=
  match fs p with
  | .absent => true
  | _ => false

/-- Whether `info.IsDir()` holds for the path (watchEvents.go line 70). -/
def isDirB (fs : FS) (p : Str) : Bool :=
  match fs p with
  | .directory => true
  | _ => false

/-- The debounce decision of watchEvents.go lines 77-96 as a function of the
previous record, the current time and the current decision fingerprint:
`true` means process, `false` means skip as a duplicate. -/
def shouldProcessPrev (rec : Option FileEventKey) (now : Nat) (cur : Hash) : Bool :=
  match rec with
  | none => true
  | some lastInfo =>
    if now - lastInfo.lastTime ≤ debounceWindow then !(cur == lastInfo.lastHash)
    else true

/-- The tail of the loop body for an event that is processed (watchEvents.go
lines 102-115): dispatch to `handleFileEvent`, then overwrite the debounce
record with the current time and a fingerprint re-read from the post-dispatch
snapshot `fsAfter`. -/
def processFileEvent (cfg : WConfig) (st : WatchState) (name fileName eventType : Str)
    (isDelete : Bool) (now : Nat) (fsAfter : FS) (hashComputed : Bool) : StepOut :=
  let r := handleFileEvent cfg.thisFileIsMine cfg.filesEventHandlers
            fileName name eventType isDelete
  { state := { lastEventInfo := fun q =>
      if q = name then some ⟨now, calculateFileHash fsAfter name⟩
      else st.lastEventInfo q }
    action := .processed r.reload
    decisionHashComputed := hashComputed }

/-- One iteration of the `event ∈ h.watcher.Events` branch of the
`watchEvents` loop (watchEvents.go lines 43-115).  `name`/`op` are the
event's path and op string, `now` the value of `time.Now()` at line 77,
`fs` the filesystem snapshot at stat/decision time and `fsAfter` the
snapshot after `handleFileEvent` returned. -/
def watchStep (cfg : WConfig) (st : WatchState) (name op : Str) (now : Nat)
    (fs fsAfter : FS) : StepOut :=
  let eventType := toLowerStr op
  let isDelete := isDeleteEvent op
  if !isDelete && (statFailed fs name || Contain cfg.unobservedFiles name) then
    { state := st, action := .discarded, decisionHashComputed := false }
  else
    let fileName := getFileName name
    if !isDelete && isDirB fs name then
      { state := st, action := .directoryEvent, decisionHashComputed := false }
    else
      match st.lastEventInfo name with
      | none => processFileEvent cfg st name fileName eventType isDelete now fsAfter false
      | some lastInfo =>
        if now - lastInfo.lastTime ≤ debounceWindow then
          let currentHash := calculateFileHash fs name
          if currentHash == lastInfo.lastHash then
            { state := st, action := .duplicateSkipped, decisionHashComputed := true }
          else processFileEvent cfg st name fileName eventType isDelete now fsAfter true
        else processFileEvent cfg st name fileName eventType isDelete now fsAfter false

/-- Whether an event passes the pre-debounce filters of the loop (stat,
exclusion, directory hand-off; watchEvents.go lines 50-73) and reaches the
debounce logic as a file event. -/
def reachesDebounce (unobservedFiles : List Str) (fs : FS) (name op : Str) : Bool :=
  isDeleteEvent op ||
    (!(statFailed fs name) && !(Contain unobservedFiles name) && !(isDirB fs name))

/-- One `scheduleReload` call at time `t` against the current armed deadline
(`none` = timer idle/stopped): the timer is always left armed with the fresh
deadline `t + reloadWait` (watchEvents.go lines 226-245).  If the previous
deadline had already elapsed (`d ≤ t`), its firing was delivered to the
dedicated consumer goroutine (lines 31-36), which invoked the reload at `d`;
the returned list collects such reload times. -/
def schedStep (s : Option Nat) (t : Nat) : Option Nat × List Nat :=
  match s with
  | none => (some (t + reloadWait), [])
  | some d => if d ≤ t then (some (t + reloadWait), [d]) else (some (t + reloadWait), [])

/-- Runs the reload scheduler over a time-ordered list of qualifying dispatch
results, starting from a given timer state; returns the final timer state and
the times at which the reload action was invoked. -/
def runSchedAux : Option Nat → List Nat → Option Nat × List Nat
  | s, [] => (s, [])
  | s, t :: ts =>
    let st := schedStep s t
    let r := runSchedAux st.1 ts
    (r.1, st.2 ++ r.2)

/-- All reload invocation times for a full run: firings observed during the
run, plus the trailing firing of a timer still armed when events stop (the
consumer goroutine receives it when the deadline elapses). -/
def reloadTimes (events : List Nat) : List Nat :=
  let r := runSchedAux none events
  r.2 ++ (match r.1 with | some d => [d] | none => [])

/-- The last element of a burst (its final event time). -/
def lastD : List Nat → Nat
  | [] => 0
  | [t] => t
  | _ :: t :: ts => lastD (t :: ts)

/-- A burst: time-ordered events, each arriving strictly within the reload
window of the previous one. -/
def withinBurst : List Nat → Bool
  | [] => true
  | [_] => true
  | a :: b :: rest => (a ≤ b && b < a + reloadWait) && withinBurst (b :: rest)

/-- Observable state of the `time.Timer` + consumer-goroutine pair at
shutdown: no timer was ever created; the timer exists but is stopped with an
empty channel; it is armed and has not yet fired (`Stop()` would return
`true`); it has fired and the value still sits unconsumed in its channel
(`Stop()` returns `false`, the channel receive succeeds); or it has fired and
the consumer goroutine already received the value and ran the reload
(`Stop()` returns `false`, the channel is empty). -/
inductive TimerPhase where
  | noTimer : TimerPhase
  | stoppedTimer : TimerPhase
  | armed : TimerPhase
  | firedPending : TimerPhase
  | firedConsumed : TimerPhase
deriving DecidableEq

/-- Go: `stopReload` (watchEvents.go lines 248-269).  Returns the final timer
phase and how many times the shutdown path itself invoked the reload action. -/
def stopReload : TimerPhase → TimerPhase × Nat
  | .noTimer => (.noTimer, 0)
  | .stoppedTimer => (.stoppedTimer, 0)
  | .armed => (.stoppedTimer, 0)
  | .firedPending => (.stoppedTimer, 1)
  | .firedConsumed => (.firedConsumed, 0)

/-- Outcome of the exit branch of the `watchEvents` select (watchEvents.go
lines 123-126): the notification source is closed, then `stopReload` runs. -/
structure ExitOutcome where
  watcherClosed : Bool
  reloadInvocations : Nat
  timer : TimerPhase
deriving DecidableEq

/-- Go: the `<-h.ExitChan` case (watchEvents.go lines 123-126). -/
def exitStep (p : TimerPhase) : ExitOutcome :=
  let r := stopReload p
  { watcherClosed := true, reloadInvocations := r.2, timer := r.1 }

/-- Sample filesystem snapshot with no entries (every stat fails). -/
def fsEmpty : FS := fun _ => .absent

/-- Sample snapshot containing the single readable file `src/app.go`. -/
def fs1 : FS := fun p => if p = "src/app.go".data then .file (some [1]) else .absent

/-- Sample snapshot containing the single readable file `b.go`. -/
def fs2 : FS := fun p => if p = "b.go".data then .file (some [1]) else .absent

/-- Sample handler that supports `.go` and whose `NewFileEvent` always
returns nil. -/
def goHandler : Handler :=
  { supportedExtensions := [".go".data]
    mainInputFileRelativePath := "cmd/main.go".data
    newFileEventOk := fun _ _ _ _ => true }

/-- Sample configuration with no handlers and an always-erroring oracle. -/
def cfg0 : WConfig :=
  { unobservedFiles := [".git".data], filesEventHandlers := [],
    thisFileIsMine := fun _ _ _ => none }

/-- Sample configuration with one `.go` handler and an oracle that always
answers "mine". -/
def cfg1 : WConfig :=
  { unobservedFiles := [".git".data], filesEventHandlers := [goHandler],
    thisFileIsMine := fun _ _ _ => some true }

/-- The empty debounce state. -/
def st0 : WatchState := ⟨fun _ => none⟩

/-- Debounce state after processing a write to `src/app.go` at time 100. -/
def st1 : WatchState :=
  (watchStep cfg1 st0 "src/app.go".data "WRITE".data 100 fs1 fs1).state

/-- Debounce state after processing a write to `b.go` at time 0. -/
def st2 : WatchState :=
  (watchStep cfg1 st0 "b.go".data "WRITE".data 0 fs2 fs2).state

/-- First of two rapid remove events for the absent path `a.txt`. -/
def c6Step1 : StepOut := watchStep cfg0 st0 "a.txt".data "REMOVE".data 0 fsEmpty fsEmpty

/-- Second remove event for `a.txt`, 10 ms after the first. -/
def c6Step2 : StepOut :=
  watchStep cfg0 c6Step1.state "a.txt".data "REMOVE".data 10 fsEmpty fsEmpty

theorem stepSucceeded_eq_true_iff (s : HandlerStep) :
    stepSucceeded s = true ↔ s = .invoked true := by
  cases s with
  | invoked b => cases b <;> simp [stepSucceeded]
  | _ => simp [stepSucceeded]

theorem dispatchAll_eq (oracle : Oracle) (ext fn en et : Str) (d : Bool)
    (hs : List Handler) :
    dispatchAll oracle ext fn en et d hs =
      (hs.map (handlerStep oracle ext fn en et d),
       hs.any fun h => stepSucceeded (handlerStep oracle ext fn en et d h),
       (ext == ".go".data) &&
         hs.any fun h => stepSucceeded (handlerStep oracle ext fn en et d h)) := by
  induction hs with
  | nil => simp [dispatchAll]
  | cons h t ih => simp [dispatchAll, ih, Bool.and_or_distrib_left]

theorem handleFileEvent_steps (oracle : Oracle) (handlers : List Handler)
    (fn en et : Str) (d : Bool) :
    (handleFileEvent oracle handlers fn en et d).steps
      = handlers.map (handlerStep oracle (pathExt en) fn en et d) := by
  simp [handleFileEvent, dispatchAll_eq]

theorem handleFileEvent_reload (oracle : Oracle) (handlers : List Handler)
    (fn en et : Str) (d : Bool) :
    (handleFileEvent oracle handlers fn en et d).reload
      = handlers.any fun h =>
          stepSucceeded (handlerStep oracle (pathExt en) fn en et d h) := by
  simp only [handleFileEvent, dispatchAll_eq]
  cases hg : (pathExt en == ".go".data) <;> simp

theorem watchStep_debounce (cfg : WConfig) (st : WatchState) (name op : Str)
    (now : Nat) (fs fsAfter : FS)
    (hs : reachesDebounce cfg.unobservedFiles fs name op = true) :
    watchStep cfg st name op now fs fsAfter =
      match st.lastEventInfo name with
      | none => processFileEvent cfg st name (getFileName name) (toLowerStr op)
                  (isDeleteEvent op) now fsAfter false
      | some lastInfo =>
        if now - lastInfo.lastTime ≤ debounceWindow then
          if calculateFileHash fs name == lastInfo.lastHash then
            { state := st, action := .duplicateSkipped, decisionHashComputed := true }
          else processFileEvent cfg st name (getFileName name) (toLowerStr op)
                 (isDeleteEvent op) now fsAfter true
        else processFileEvent cfg st name (getFileName name) (toLowerStr op)
               (isDeleteEvent op) now fsAfter false := by
  unfold watchStep
  unfold reachesDebounce at hs
  by_cases hdel : isDeleteEvent op = true
  · simp [hdel]
  · rw [Bool.not_eq_true] at hdel
    rw [hdel] at hs
    simp only [Bool.false_or, Bool.and_eq_true, Bool.not_eq_true'] at hs
    obtain ⟨⟨h1, h2⟩, h3⟩ := hs
    simp [hdel, h1, h2, h3]

theorem watchStep_none (cfg : WConfig) (st : WatchState) (name op : Str)
    (now : Nat) (fs fsAfter : FS)
    (hs : reachesDebounce cfg.unobservedFiles fs name op = true)
    (hrec : st.lastEventInfo name = none) :
    watchStep cfg st name op now fs fsAfter
      = processFileEvent cfg st name (getFileName name) (toLowerStr op)
          (isDeleteEvent op) now fsAfter false := by
  rw [watchStep_debounce cfg st name op now fs fsAfter hs, hrec]

theorem watchStep_late (cfg : WConfig) (st : WatchState) (name op : Str)
    (now : Nat) (fs fsAfter : FS) (lastInfo : FileEventKey)
    (hs : reachesDebounce cfg.unobservedFiles fs name op = true)
    (hrec : st.lastEventInfo name = some lastInfo)
    (hwin : debounceWindow < now - lastInfo.lastTime) :
    watchStep cfg st name op now fs fsAfter
      = processFileEvent cfg st name (getFileName name) (toLowerStr op)
          (isDeleteEvent op) now fsAfter false := by
  rw [watchStep_debounce cfg st name op now fs fsAfter hs, hrec]
  simp only []
  rw [if_neg (by omega)]

theorem watchStep_within_eq (cfg : WConfig) (st : WatchState) (name op : Str)
    (now : Nat) (fs fsAfter : FS) (lastInfo : FileEventKey)
    (hs : reachesDebounce cfg.unobservedFiles fs name op = true)
    (hrec : st.lastEventInfo name = some lastInfo)
    (hwin : now - lastInfo.lastTime ≤ debounceWindow)
    (hh : calculateFileHash fs name = lastInfo.lastHash) :
    watchStep cfg st name op now fs fsAfter
      = { state := st, action := .duplicateSkipped, decisionHashComputed := true } := by
  rw [watchStep_debounce cfg st name op now fs fsAfter hs, hrec]
  simp only []
  rw [if_pos hwin, if_pos (by simp [hh])]

theorem watchStep_within_ne (cfg : WConfig) (st : WatchState) (name op : Str)
    (now : Nat) (fs fsAfter : FS) (lastInfo : FileEventKey)
    (hs : reachesDebounce cfg.unobservedFiles fs name op = true)
    (hrec : st.lastEventInfo name = some lastInfo)
    (hwin : now - lastInfo.lastTime ≤ debounceWindow)
    (hh : calculateFileHash fs name ≠ lastInfo.lastHash) :
    watchStep cfg st name op now fs fsAfter
      = processFileEvent cfg st name (getFileName name) (toLowerStr op)
          (isDeleteEvent op) now fsAfter true := by
  rw [watchStep_debounce cfg st name op now fs fsAfter hs, hrec]
  simp only []
  rw [if_pos hwin, if_neg (by simp [hh])]

theorem processFileEvent_action (cfg : WConfig) (st : WatchState)
    (name fn et : Str) (d : Bool) (now : Nat) (fsAfter : FS) (hc : Bool) :
    (processFileEvent cfg st name fn et d now fsAfter hc).action
      = .processed (handleFileEvent cfg.thisFileIsMine cfg.filesEventHandlers
          fn name et d).reload := rfl

theorem processFileEvent_record (cfg : WConfig) (st : WatchState)
    (name fn et : Str) (d : Bool) (now : Nat) (fsAfter : FS) (hc : Bool) (q : Str) :
    (processFileEvent cfg st name fn et d now fsAfter hc).state.lastEventInfo q
      = if q = name then some ⟨now, calculateFileHash fsAfter name⟩
        else st.lastEventInfo q := rfl

/-- C1. Content-aware debounce: for an event that reaches the debounce stage,
no record ⇒ processed (no fingerprint computed); record older than the 50 ms
window ⇒ processed unconditionally without computing a fingerprint; record
within the window ⇒ processed iff the current content fingerprint differs
from the stored one, and skipped as a duplicate iff they are equal. -/
theorem c1_content_aware_debounce (cfg : WConfig) (st : WatchState) (name op : Str)
    (now : Nat) (fs fsAfter : FS)
    (hs : reachesDebounce cfg.unobservedFiles fs name op = true) :
    (st.lastEventInfo name = none →
       (∃ b, (watchStep cfg st name op now fs fsAfter).action = .processed b)
       ∧ (watchStep cfg st name op now fs fsAfter).decisionHashComputed = false)
    ∧ (∀ lastInfo, st.lastEventInfo name = some lastInfo →
        debounceWindow < now - lastInfo.lastTime →
        (∃ b, (watchStep cfg st name op now fs fsAfter).action = .processed b)
        ∧ (watchStep cfg st name op now fs fsAfter).decisionHashComputed = false)
    ∧ (∀ lastInfo, st.lastEventInfo name = some lastInfo →
        now - lastInfo.lastTime ≤ debounceWindow →
        ((∃ b, (watchStep cfg st name op now fs fsAfter).action = .processed b)
           ↔ calculateFileHash fs name ≠ lastInfo.lastHash)
        ∧ ((watchStep cfg st name op now fs fsAfter).action = .duplicateSkipped
           ↔ calculateFileHash fs name = lastInfo.lastHash)) := by
  refine ⟨?_, ?_, ?_⟩
  · intro hrec
    rw [watchStep_none cfg st name op now fs fsAfter hs hrec]
    exact ⟨⟨_, rfl⟩, rfl⟩
  · intro lastInfo hrec hwin
    rw [watchStep_late cfg st name op now fs fsAfter lastInfo hs hrec hwin]
    exact ⟨⟨_, rfl⟩, rfl⟩
  · intro lastInfo hrec hwin
    by_cases hh : calculateFileHash fs name = lastInfo.lastHash
    · rw [watchStep_within_eq cfg st name op now fs fsAfter lastInfo hs hrec hwin hh]
      simp [hh]
    · rw [watchStep_within_ne cfg st name op now fs fsAfter lastInfo hs hrec hwin hh]
      simp [hh, processFileEvent_action]

/-- Witness for C1 at a concrete input: a write to `src/app.go` with no prior
record is processed without computing a decision fingerprint. -/
theorem c1_w :
    reachesDebounce cfg1.unobservedFiles fs1 "src/app.go".data "WRITE".data = true
    ∧ (∃ b, (watchStep cfg1 st0 "src/app.go".data "WRITE".data 100 fs1 fs1).action
        = .processed b)
    ∧ (watchStep cfg1 st0 "src/app.go".data "WRITE".data 100 fs1 fs1).decisionHashComputed
        = false :=
  ⟨by decide,
   ((c1_content_aware_debounce cfg1 st0 "src/app.go".data "WRITE".data 100 fs1 fs1
      (by decide)).1 rfl).1,
   ((c1_content_aware_debounce cfg1 st0 "src/app.go".data "WRITE".data 100 fs1 fs1
      (by decide)).1 rfl).2⟩

/-- C2. Record-after-dispatch invariant: a processed event overwrites the
record for its path with the current time and a fingerprint re-read from the
post-dispatch snapshot `fsAfter` (other paths untouched); a skipped event
leaves the state unchanged; and the skip decision agrees with the decision
function applied to the record as it stood before the event and the
pre-dispatch snapshot. -/
theorem c2_record_after_dispatch (cfg : WConfig) (st : WatchState) (name op : Str)
    (now : Nat) (fs fsAfter : FS)
    (hs : reachesDebounce cfg.unobservedFiles fs name op = true) :
    (∀ b, (watchStep cfg st name op now fs fsAfter).action = .processed b →
        (watchStep cfg st name op now fs fsAfter).state.lastEventInfo name
          = some ⟨now, calculateFileHash fsAfter name⟩
        ∧ ∀ q, q ≠ name →
            (watchStep cfg st name op now fs fsAfter).state.lastEventInfo q
              = st.lastEventInfo q)
    ∧ ((watchStep cfg st name op now fs fsAfter).action = .duplicateSkipped →
        (watchStep cfg st name op now fs fsAfter).state = st)
    ∧ ((watchStep cfg st name op now fs fsAfter).action = .duplicateSkipped
        ↔ shouldProcessPrev (st.lastEventInfo name) now (calculateFileHash fs name)
            = false) := by
  cases hrec : st.lastEventInfo name with
  | none =>
    rw [watchStep_none cfg st name op now fs fsAfter hs hrec]
    refine ⟨?_, ?_, ?_⟩
    · intro b _
      refine ⟨by rw [processFileEvent_record]; simp, ?_⟩
      intro q hq
      rw [processFileEvent_record]
      simp [hq]
    · intro hact
      simp [processFileEvent_action] at hact
    · simp [processFileEvent_action, shouldProcessPrev]
  | some lastInfo =>
    by_cases hwin : now - lastInfo.lastTime ≤ debounceWindow
    · by_cases hh : calculateFileHash fs name = lastInfo.lastHash
      · rw [watchStep_within_eq cfg st name op now fs fsAfter lastInfo hs hrec hwin hh]
        refine ⟨?_, fun _ => rfl, ?_⟩
        · intro b hact
          simp at hact
        · simp [shouldProcessPrev, hwin, hh]
      · rw [watchStep_within_ne cfg st name op now fs fsAfter lastInfo hs hrec hwin hh]
        refine ⟨?_, ?_, ?_⟩
        · intro b _
          refine ⟨by rw [processFileEvent_record]; simp, ?_⟩
          intro q hq
          rw [processFileEvent_record]
          simp [hq]
        · intro hact
          simp [processFileEvent_action] at hact
        · simp [processFileEvent_action, shouldProcessPrev, hwin]
          simpa using hh
    · rw [watchStep_late cfg st name op now fs fsAfter lastInfo hs hrec (by omega)]
      refine ⟨?_, ?_, ?_⟩
      · intro b _
        refine ⟨by rw [processFileEvent_record]; simp, ?_⟩
        intro q hq
        rw [processFileEvent_record]
        simp [hq]
      · intro hact
        simp [processFileEvent_action] at hact
      · simp [processFileEvent_action, shouldProcessPrev, hwin]

/-- Witness for C2 at a concrete input: a duplicate write to `src/app.go`
20 ms after the recorded one, with unchanged content, is skipped and leaves
the debounce state unchanged. -/
theorem c2_w :
    reachesDebounce cfg1.unobservedFiles fs1 "src/app.go".data "WRITE".data = true
    ∧ (watchStep cfg1 st1 "src/app.go".data "WRITE".data 120 fs1 fs1).state = st1 :=
  ⟨by decide,
   (c2_record_after_dispatch cfg1 st1 "src/app.go".data "WRITE".data 120 fs1 fs1
      (by decide)).2.1 (by decide)⟩

/-- Claim C3. Dispatch and reload-warranted rule: `handleFileEvent` considers
every registered handler (each handler's outcome is its own `handlerStep`,
independent of the others — no short-circuit on success or failure; a handler
whose supported-extension set lacks the event's extension steps to
`notApplicable`), and `scheduleReload` is called iff at least one handler that
was actually invoked (for `.go`: an owning handler) returned a nil error. -/
theorem c3_dispatch_and_reload (oracle : Oracle) (handlers : List Handler)
    (fileName eventName eventType : Str) (isDelete : Bool) :
    (handleFileEvent oracle handlers fileName eventName eventType isDelete).steps
      = handlers.map
          (handlerStep oracle (pathExt eventName) fileName eventName eventType isDelete)
    ∧ ((handleFileEvent oracle handlers fileName eventName eventType isDelete).reload
         = true
       ↔ ∃ h ∈ handlers,
           handlerStep oracle (pathExt eventName) fileName eventName eventType isDelete h
             = .invoked true) := by
  refine ⟨handleFileEvent_steps oracle handlers fileName eventName eventType isDelete, ?_⟩
  rw [handleFileEvent_reload, List.any_eq_true]
  exact exists_congr fun h => and_congr_right fun _ => stepSucceeded_eq_true_iff _

/-- Claim C9. Ownership-oracle errors are non-fatal skips: for a non-delete
`.go` event, a handler supporting `.go` for which the oracle errors is not
invoked (its step is `oracleError`), while every handler still gets exactly
its own step — the oracle error neither aborts the event nor affects the
other handlers. -/
theorem c9_oracle_error_nonfatal (oracle : Oracle) (handlers : List Handler)
    (fileName eventName eventType : Str) (i : Nat) (h : Handler)
    (hget : handlers[i]? = some h)
    (hext : pathExt eventName = ".go".data)
    (hsup : h.supportedExtensions.contains ".go".data = true)
    (horacle : oracle h.mainInputFileRelativePath eventName eventType = none) :
    ((handleFileEvent oracle handlers fileName eventName eventType false).steps)[i]?
      = some .oracleError
    ∧ ((handleFileEvent oracle handlers fileName eventName eventType false).steps).length
      = handlers.length
    ∧ ∀ (j : Nat) (hj : Handler), handlers[j]? = some hj →
        ((handleFileEvent oracle handlers fileName eventName eventType false).steps)[j]?
          = some (handlerStep oracle ".go".data fileName eventName eventType false hj) := by
  rw [handleFileEvent_steps, hext]
  refine ⟨?_, by simp, ?_⟩
  · rw [List.getElem?_map, hget]
    have hmem : (".go".data) ∈ h.supportedExtensions := by simpa using hsup
    simp [handlerStep, hmem, horacle]
  · intro j hj hgj
    rw [List.getElem?_map, hgj]
    rfl

/-- Witness for C9 at a concrete input: with a single `.go` handler and an
always-erroring oracle, a write to `a/main.go` leaves that handler's step as
`oracleError`. -/
theorem c9_w :
    ((handleFileEvent (fun _ _ _ => none) [goHandler] "main.go".data
        "a/main.go".data "write".data false).steps)[0]? = some .oracleError :=
  (c9_oracle_error_nonfatal (fun _ _ _ => none) [goHandler] "main.go".data
    "a/main.go".data "write".data 0 goHandler rfl (by decide) (by decide) rfl).1

/-- Claim C10. Delete-event bypass: for a remove/delete event the loop's
outcome is independent of the exclusion configuration (Contain is never
consulted), the stat-failure and directory branches are never taken, and the
event proceeds to debounce and dispatch (skipped-as-duplicate or processed). -/
theorem c10_delete_bypass (u₁ u₂ : List Str) (H : List Handler) (O : Oracle)
    (st : WatchState) (name op : Str) (now : Nat) (fs fsAfter : FS)
    (hdel : isDeleteEvent op = true) :
    watchStep ⟨u₁, H, O⟩ st name op now fs fsAfter
      = watchStep ⟨u₂, H, O⟩ st name op now fs fsAfter
    ∧ (watchStep ⟨u₁, H, O⟩ st name op now fs fsAfter).action ≠ .discarded
    ∧ (watchStep ⟨u₁, H, O⟩ st name op now fs fsAfter).action ≠ .directoryEvent
    ∧ ((watchStep ⟨u₁, H, O⟩ st name op now fs fsAfter).action = .duplicateSkipped
       ∨ ∃ b, (watchStep ⟨u₁, H, O⟩ st name op now fs fsAfter).action = .processed b) := by
  have hred : ∀ u : List Str,
      watchStep ⟨u, H, O⟩ st name op now fs fsAfter =
        match st.lastEventInfo name with
        | none => processFileEvent ⟨u, H, O⟩ st name (getFileName name) (toLowerStr op)
                    (isDeleteEvent op) now fsAfter false
        | some lastInfo =>
          if now - lastInfo.lastTime ≤ debounceWindow then
            if calculateFileHash fs name == lastInfo.lastHash then
              { state := st, action := .duplicateSkipped, decisionHashComputed := true }
            else processFileEvent ⟨u, H, O⟩ st name (getFileName name) (toLowerStr op)
                   (isDeleteEvent op) now fsAfter true
          else processFileEvent ⟨u, H, O⟩ st name (getFileName name) (toLowerStr op)
                 (isDeleteEvent op) now fsAfter false := by
    intro u
    exact watchStep_debounce ⟨u, H, O⟩ st name op now fs fsAfter
      (by unfold reachesDebounce; rw [hdel]; rfl)
  have hcongr : ∀ (hc : Bool),
      processFileEvent ⟨u₁, H, O⟩ st name (getFileName name) (toLowerStr op)
        (isDeleteEvent op) now fsAfter hc
      = processFileEvent ⟨u₂, H, O⟩ st name (getFileName name) (toLowerStr op)
        (isDeleteEvent op) now fsAfter hc := fun _ => rfl
  refine ⟨?_, ?_⟩
  · rw [hred u₁, hred u₂]
    cases st.lastEventInfo name with
    | none => exact hcongr false
    | some lastInfo =>
      by_cases hwin : now - lastInfo.lastTime ≤ debounceWindow
      · simp only [if_pos hwin]
        by_cases hh : (calculateFileHash fs name == lastInfo.lastHash) = true
        · rw [if_pos hh, if_pos hh]
        · rw [if_neg hh, if_neg hh]
          exact hcongr true
      · simp only [if_neg hwin]
        exact hcongr false
  · rw [hred u₁]
    cases st.lastEventInfo name with
    | none => simp [processFileEvent_action]
    | some lastInfo =>
      by_cases hwin : now - lastInfo.lastTime ≤ debounceWindow
      · by_cases hh : (calculateFileHash fs name == lastInfo.lastHash) = true
        · simp only [if_pos hwin, if_pos hh]
          simp
        · simp only [if_pos hwin, if_neg hh]
          simp [processFileEvent_action]
      · simp only [if_neg hwin]
        simp [processFileEvent_action]

/-- Witness for C10 at a concrete input: a remove event for the absent path
`x/.git/a.go` — which would be discarded as a non-delete event (stat fails
and the path is excluded) — gives the same outcome with and without the
`.git` exclusion, and is dispatched with a reload scheduled. -/
theorem c10_w :
    isDeleteEvent "REMOVE".data = true
    ∧ statFailed fsEmpty "x/.git/a.go".data = true
    ∧ Contain cfg1.unobservedFiles "x/.git/a.go".data = true
    ∧ watchStep ⟨[".git".data], [goHandler], fun _ _ _ => some true⟩ st0
        "x/.git/a.go".data "REMOVE".data 0 fsEmpty fsEmpty
      = watchStep ⟨[], [goHandler], fun _ _ _ => some true⟩ st0
        "x/.git/a.go".data "REMOVE".data 0 fsEmpty fsEmpty
    ∧ (watchStep ⟨[".git".data], [goHandler], fun _ _ _ => some true⟩ st0
        "x/.git/a.go".data "REMOVE".data 0 fsEmpty fsEmpty).action = .processed true :=
  ⟨by decide, by decide, by decide,
   (c10_delete_bypass [".git".data] [] [goHandler] (fun _ _ _ => some true) st0
      "x/.git/a.go".data "REMOVE".data 0 fsEmpty fsEmpty (by decide)).1,
   by decide⟩

/-- Counterexample to claim C6 as stated: two remove events for the absent
path `a.txt`, 10 ms apart.  The first is processed and stores the zero
fingerprint; at the second, the file is unreadable, so the computed zero
fingerprint equals the stored one and the event is skipped — not processed
as the claim requires. -/
theorem c6_counterexample :
    calculateFileHash fsEmpty "a.txt".data = Hash.zero
    ∧ c6Step1.state.lastEventInfo "a.txt".data = some ⟨0, Hash.zero⟩
    ∧ (10 : Nat) - 0 ≤ debounceWindow
    ∧ c6Step2.action = .duplicateSkipped := by decide

/-- Claim C6 (amended). The zero fingerprint of an unreadable file never
equals a previously stored real (readable-content) fingerprint: within the
debounce window, if the stored fingerprint is a genuine content digest and
the file is now unreadable, the event is processed rather than skipped. -/
theorem c6_unreadable_differs_from_real (cfg : WConfig) (st : WatchState)
    (name op : Str) (now : Nat) (fs fsAfter : FS) (lastInfo : FileEventKey)
    (c : Content)
    (hs : reachesDebounce cfg.unobservedFiles fs name op = true)
    (hrec : st.lastEventInfo name = some lastInfo)
    (hreal : lastInfo.lastHash = Hash.sha c)
    (hwin : now - lastInfo.lastTime ≤ debounceWindow)
    (hunread : calculateFileHash fs name = Hash.zero) :
    ∃ b, (watchStep cfg st name op now fs fsAfter).action = .processed b := by
  have hh : calculateFileHash fs name ≠ lastInfo.lastHash := by
    rw [hunread, hreal]
    exact fun hcontra => Hash.noConfusion hcontra
  rw [watchStep_within_ne cfg st name op now fs fsAfter lastInfo hs hrec hwin hh]
  exact ⟨_, processFileEvent_action cfg st name (getFileName name) (toLowerStr op)
    (isDeleteEvent op) now fsAfter true⟩

/-- Witness for the amended C6 at a concrete input: `b.go` was recorded with
a real content fingerprint, then removed; the remove event 10 ms later finds
the file unreadable and is processed. -/
theorem c6_w :
    st2.lastEventInfo "b.go".data = some ⟨0, Hash.sha [1]⟩
    ∧ calculateFileHash fsEmpty "b.go".data = Hash.zero
    ∧ ∃ b, (watchStep cfg1 st2 "b.go".data "REMOVE".data 10 fsEmpty fsEmpty).action
        = .processed b :=
  ⟨by decide, by decide,
   c6_unreadable_differs_from_real cfg1 st2 "b.go".data "REMOVE".data 10 fsEmpty
     fsEmpty ⟨0, Hash.sha [1]⟩ [1] (by decide) (by decide) rfl (by decide) (by decide)⟩

/-- Claim C7. Segment-wise exclusion predicate: `Contain` holds iff some path
segment (split on both `/` and `\`) starts with a dot or exactly matches a
caller-supplied unobserved name; in particular `github-integration` is not
excluded by the entry `.git`, while a segment exactly `.git` at the start,
middle or end of the path, in either separator style, is excluded. -/
theorem c7_exclusion_predicate :
    (∀ (u : List Str) (p : Str),
       Contain u p = true
         ↔ ∃ seg ∈ pathSegments p, startsDot seg = true ∨ seg ∈ u)
    ∧ Contain [".git".data] "test/github-integration/code.go".data = false
    ∧ Contain [".git".data] ".git/src/a.go".data = true
    ∧ Contain [".git".data] "test/manual/.git/objects/pack".data = true
    ∧ Contain [".git".data] "repo/src/.git".data = true
    ∧ Contain [".git".data] "C:\\Users\\dev\\repo\\.git\\objects\\pack".data = true := by
  refine ⟨?_, by decide, by decide, by decide, by decide, by decide⟩
  intro u p
  rw [Contain, List.any_eq_true]
  refine exists_congr fun seg => and_congr_right fun _ => ?_
  simp

theorem walkFold_snd (c : Str → Bool) (root : Str) :
    ∀ (es : List WalkEntry) (reg acc : List Str),
      (walkFold c root es reg acc).2
        = acc ++ dedupKeepFirst (es.filterMap (walkCandidate c root)) reg := by
  intro es
  induction es with
  | nil => intro reg acc; simp [walkFold, dedupKeepFirst]
  | cons e rest ih =>
    intro reg acc
    cases e with
    | errored p => simp [walkFold, walkCandidate, ih]
    | entry p isDir =>
      by_cases hc : (isDir && !(p == root) && !(c p)) = true
      · by_cases hp : p ∈ reg
        · simp [walkFold, hc, walkCandidate, addDirectoryToWatcher, hp, ih, dedupKeepFirst]
        · simp [walkFold, hc, walkCandidate, addDirectoryToWatcher, hp, ih, dedupKeepFirst]
      · simp [walkFold, hc, walkCandidate, ih]

theorem dedupKeepFirst_nodup :
    ∀ (l seen : List Str),
      (dedupKeepFirst l seen).Nodup
      ∧ ∀ x ∈ dedupKeepFirst l seen, x ∉ seen := by
  intro l
  induction l with
  | nil => intro seen; simp [dedupKeepFirst]
  | cons x xs ih =>
    intro seen
    by_cases hx : x ∈ seen
    · simpa [dedupKeepFirst, hx] using ih seen
    · have h2 := ih (x :: seen)
      refine ⟨?_, ?_⟩
      · simp only [dedupKeepFirst, if_neg hx, List.nodup_cons]
        refine ⟨fun hmem => ?_, h2.1⟩
        exact h2.2 x hmem (List.mem_cons_self x seen)
      · intro y hy
        simp only [dedupKeepFirst, if_neg hx, List.mem_cons] at hy
        rcases hy with rfl | hy
        · exact hx
        · exact fun hmem => h2.2 y hy (List.mem_cons_of_mem x hmem)

/-- Claim C8. Recursive directory registration: on a directory-create event
the root is registered first, then exactly the non-errored directory entries
of the walk other than the root and not excluded, first occurrence only (the
walk-scoped registration set prevents registering a path twice, so the
resulting registration sequence has no duplicates); errored traversal entries
are skipped while the walk continues. -/
theorem c8_directory_registration (u : List Str) (root eventType : Str)
    (walk : List WalkEntry) (hcreate : eventType = "create".data) :
    handleDirectoryEvent u root eventType walk
      = root :: dedupKeepFirst (walk.filterMap (walkCandidate (Contain u) root)) [root]
    ∧ (handleDirectoryEvent u root eventType walk).Nodup := by
  subst hcreate
  have heq : handleDirectoryEvent u root "create".data walk
      = root :: dedupKeepFirst (walk.filterMap (walkCandidate (Contain u) root)) [root] := by
    unfold handleDirectoryEvent
    rw [if_pos (by simp)]
    simp only [addDirectoryToWatcher, List.not_mem_nil, if_neg (List.not_mem_nil root)]
    rw [walkFold_snd]
    simp
  refine ⟨heq, ?_⟩
  rw [heq]
  have h := dedupKeepFirst_nodup (walk.filterMap (walkCandidate (Contain u) root)) [root]
  refine List.nodup_cons.mpr ⟨?_, h.1⟩
  intro hmem
  exact h.2 root hmem (List.mem_singleton.mpr rfl)

/-- Witness for C8 at a concrete input: creating `a` with a walk containing
an errored entry, the root again, a duplicated subdirectory, a plain file,
a hidden directory and one more subdirectory registers exactly
`a`, `a/b`, `a/c`. -/
theorem c8_w :
    handleDirectoryEvent [".git".data] "a".data "create".data
      [.errored "a/e".data, .entry "a".data true, .entry "a/b".data true,
       .entry "a/b".data true, .entry "a/c/f.go".data false,
       .entry "a/.git".data true, .entry "a/c".data true]
      = ["a".data, "a/b".data, "a/c".data] :=
  (c8_directory_registration [".git".data] "a".data "create".data
    [.errored "a/e".data, .entry "a".data true, .entry "a/b".data true,
     .entry "a/b".data true, .entry "a/c/f.go".data false,
     .entry "a/.git".data true, .entry "a/c".data true] rfl).1.trans (by decide)

theorem runSchedAux_burst :
    ∀ (ts : List Nat) (t0 : Nat), withinBurst (t0 :: ts) = true →
      runSchedAux (some (t0 + reloadWait)) ts
        = (some (lastD (t0 :: ts) + reloadWait), []) := by
  intro ts
  induction ts with
  | nil => intro t0 _; simp [runSchedAux, lastD]
  | cons t1 rest ih =>
    intro t0 hb
    simp only [withinBurst, Bool.and_eq_true, decide_eq_true_eq] at hb
    obtain ⟨⟨_, hlt⟩, htail⟩ := hb
    have hstep : schedStep (some (t0 + reloadWait)) t1
        = (some (t1 + reloadWait), []) := by
      simp [schedStep, Nat.not_le.mpr hlt]
    calc runSchedAux (some (t0 + reloadWait)) (t1 :: rest)
        = (let st := schedStep (some (t0 + reloadWait)) t1
           let r := runSchedAux st.1 rest
           (r.1, st.2 ++ r.2)) := rfl
      _ = (some (lastD (t1 :: rest) + reloadWait), []) := by
          rw [hstep]
          simp [ih t1 htail]
      _ = (some (lastD (t0 :: t1 :: rest) + reloadWait), []) := by
          rfl

/-- Claim C4. Trailing-debounce coalescing: a qualifying result while idle
arms the timer with a fresh 50 ms deadline; while armed it re-arms, discarding
the previous deadline without firing; and a burst of events each arriving
strictly within the window of the previous one produces exactly one reload
invocation, at the last event's time plus the window. -/
theorem c4_trailing_debounce (t0 : Nat) (ts : List Nat)
    (hb : withinBurst (t0 :: ts) = true) :
    (∀ t, schedStep none t = (some (t + reloadWait), [])) ∧
    (∀ d t, t < d → schedStep (some d) t = (some (t + reloadWait), [])) ∧
    reloadTimes (t0 :: ts) = [lastD (t0 :: ts) + reloadWait] := by
  refine ⟨fun t => rfl, fun d t h => by simp [schedStep, Nat.not_le.mpr h], ?_⟩
  have h0 : runSchedAux none (t0 :: ts)
      = (some (lastD (t0 :: ts) + reloadWait), []) := by
    calc runSchedAux none (t0 :: ts)
        = (let st := schedStep none t0
           let r := runSchedAux st.1 ts
           (r.1, st.2 ++ r.2)) := rfl
      _ = (some (lastD (t0 :: ts) + reloadWait), []) := by
          simp [schedStep, runSchedAux_burst ts t0 hb]
  simp [reloadTimes, h0]

/-- Witness for C4 at a concrete input: five qualifying events at 0, 10, 20,
30, 40 ms produce exactly one reload, at 90 ms — after the window elapses
following the last event. -/
theorem c4_w :
    withinBurst [0, 10, 20, 30, 40] = true
    ∧ reloadTimes [0, 10, 20, 30, 40] = [90] :=
  ⟨by decide,
   ((c4_trailing_debounce 0 [10, 20, 30, 40] (by decide)).2.2).trans (by decide)⟩

/-- Claim C5. Shutdown draining: the exit branch closes the notification
source and shuts the timer down so that an armed, not-yet-fired timer is
disarmed without invoking the reload; a fired-but-unconsumed timer is drained
with exactly one reload invocation before returning; and in the idle states
(no timer, stopped timer, or firing already consumed) no reload is invoked. -/
theorem c5_shutdown_draining :
    exitStep .armed
      = { watcherClosed := true, reloadInvocations := 0, timer := .stoppedTimer }
    ∧ exitStep .firedPending
      = { watcherClosed := true, reloadInvocations := 1, timer := .stoppedTimer }
    ∧ exitStep .noTimer
      = { watcherClosed := true, reloadInvocations := 0, timer := .noTimer }
    ∧ exitStep .stoppedTimer
      = { watcherClosed := true, reloadInvocations := 0, timer := .stoppedTimer }
    ∧ exitStep .firedConsumed
      = { watcherClosed := true, reloadInvocations := 0, timer := .firedConsumed } :=
  ⟨rfl, rfl, rfl, rfl, rfl⟩

end DevWatch
